import Mathlib

/-!
Verification development for the global shortcut registry of the repository
(source module: src/utils/shortcutManager.js).

The registry keeps a JS `Map` from binding id to a binding record
`{accelerator, action, description, enabled, registered}` together with a JS
`Set` of the accelerators currently registered with the OS backend
(Electron's `globalShortcut`).  We embed:

* the JS `Map` as an insertion-ordered association list `List (String × Binding)`
  (`mapGet` / `mapSet` mirror `Map.get` / `Map.set`: `set` on an existing key
  updates in place, otherwise appends);
* the JS `Set` as a duplicate-free `List String` (`setAdd` / `setDelete`);
* the OS hotkey backend (`globalShortcut`) as an oracle `Nat → Bool` consulted
  once per `register` call (the n-th backend claim attempt returns `oracle n`),
  together with a log of backend invocations, so that "the backend was never
  touched" and claim/release sequencing are provable facts;
* the whole mutable singleton state as the structure `World`.

Fields keep the source's names (`registered` is what the specification calls
`claimed`).  Result payload fields that merely echo inputs back to the caller
(`id`, `accelerator`, `action`, `oldAccelerator`, `newAccelerator`, `count`,
`message`, `shortcuts`) are omitted from `Result`; no claim mentions them.
The methods named after reserved words are `exportConfig` / `importConfig`
(source: `export()` / `import(config)`) and `initShortcuts`
(source: the `initialize(savedShortcuts)` method).
-/

/-- A stored binding: the value type of `this.shortcuts` in the source. -/
structure Binding where
  accelerator : String
  action : String
  description : String
  enabled : Bool
  registered : Bool
deriving DecidableEq

/-- The four fields stored by `exportConfig` and consumed by `initShortcuts`. -/
structure Config where
  accelerator : String
  action : String
  description : String
  enabled : Bool
deriving DecidableEq

/-- The `lastTriggered` record of the statistics object. -/
structure TriggerRecord where
  id : String
  action : String
  accelerator : String
  timestamp : String
deriving DecidableEq

/-- One invocation of the OS hotkey backend (Electron `globalShortcut`). -/
inductive BCall where
  | tryClaim (accelerator : String) (ok : Bool)
  | release (accelerator : String)
  | releaseAll
deriving DecidableEq

/-- Result value returned by the registry operations (payload echo fields
omitted, see the module header). -/
structure Result where
  success : Bool
  error : Option String := none
  conflict : Option Bool := none
  conflictWith : Option String := none
  enabled : Option Bool := none
deriving DecidableEq

/-- The whole mutable state of the shortcut-manager singleton, together with
the backend oracle (`oracle n` answers the n-th claim attempt) and the log of
backend invocations. -/
structure World where
  shortcuts : List (String × Binding)
  registeredAccelerators : List String
  totalRegistered : Nat
  totalTriggered : Nat
  lastTriggered : Option TriggerRecord
  oracle : Nat → Bool
  calls : Nat
  backendLog : List BCall

/-- The constructor state: empty map, empty set, zeroed stats. -/
def initialWorld (oracle : Nat → Bool) : World :=
  ⟨[], [], 0, 0, none, oracle, 0, []⟩

/-! ### JS `Map` and `Set` embeddings -/

/-- `Map.get`: first entry with the given key. -/
def mapGet (m : List (String × Binding)) (k : String) : Option Binding :=
  match m with
  | [] => none
  | (k', v) :: rest => if k' = k then some v else mapGet rest k

/-- `Map.set`: update in place if the key is present, else append. -/
def mapSet (m : List (String × Binding)) (k : String) (v : Binding) :
    List (String × Binding) :=
  match m with
  | [] => [(k, v)]
  | (k', v') :: rest =>
      if k' = k then (k, v) :: rest else (k', v') :: mapSet rest k v

/-- `Set.add`: append if absent. -/
def setAdd (s : List String) (a : String) : List String :=
  if a ∈ s then s else s ++ [a]

/-- `Set.delete`. -/
def setDelete (s : List String) (a : String) : List String :=
  s.filter (fun x => x ≠ a)

/-! ### Accelerator grammar (source: `isAcceleratorValid`)

The source tests two case-sensitive regular expressions against the raw
string: `/Command|Ctrl|Control|Alt|Option|Shift|Super|Meta/` and
`/[A-Z0-9]|F[1-9]|F1[0-2]|Plus|Space|...|MediaPlayPause/`.  We work over
`List Char` and model `regex.test` by substring / character search. -/

/-- Does `pat` occur as a contiguous substring of the second list? -/
def strContains (pat : List Char) : List Char → Bool
  | [] => pat.isEmpty
  | c :: rest => pat.isPrefixOf (c :: rest) || strContains pat rest

/-- The modifier alternatives of the first regex. -/
def modifierWords : List (List Char) :=
  ["Command".data, "Ctrl".data, "Control".data, "Alt".data,
   "Option".data, "Shift".data, "Super".data, "Meta".data]

/-- `/Command|Ctrl|Control|Alt|Option|Shift|Super|Meta/.test(s)`. -/
def hasModifier (s : List Char) : Bool :=
  modifierWords.any (fun w => strContains w s)

/-- The character class `[A-Z0-9]` of the second regex. -/
def isUpperAlnum (c : Char) : Bool :=
  ('A' ≤ c && c ≤ 'Z') || ('0' ≤ c && c ≤ '9')

/-- The word alternatives of the second regex (`F[1-9]` and `F1[0-2]`
expanded). -/
def keyWords : List (List Char) :=
  ["F1".data, "F2".data, "F3".data, "F4".data, "F5".data, "F6".data,
   "F7".data, "F8".data, "F9".data, "F10".data, "F11".data, "F12".data,
   "Plus".data, "Space".data, "Tab".data, "Backspace".data, "Delete".data,
   "Insert".data, "Return".data, "Enter".data, "Up".data, "Down".data,
   "Left".data, "Right".data, "Home".data, "End".data, "PageUp".data,
   "PageDown".data, "Escape".data, "VolumeUp".data, "VolumeDown".data,
   "VolumeMute".data, "MediaNextTrack".data, "MediaPreviousTrack".data,
   "MediaStop".data, "MediaPlayPause".data]

/-- `/[A-Z0-9]|F[1-9]|F1[0-2]|Plus|...|MediaPlayPause/.test(s)`. -/
def hasKey (s : List Char) : Bool :=
  s.any isUpperAlnum || keyWords.any (fun w => strContains w s)

/-- Source `isAcceleratorValid`: the `!accelerator` falsiness guard (empty
string) followed by the two regex tests. -/
def isAcceleratorValid (s : List Char) : Bool :=
  if s.isEmpty then false
  else hasModifier s && hasKey s

/-- `isAcceleratorValid` on the `String`s stored in the registry. -/
def isAcceleratorValidS (s : String) : Bool :=
  isAcceleratorValid s.data

/-! ### The grammar as the specification words it

The specification (§4.1 and claim C7) describes validity differently: split
into `+`-separated tokens; require at least one recognized modifier token
(matched case-insensitively) and at least one recognized key token
(an alphanumeric character, `F1`–`F12`, or a named key).  The following
definitions follow the specification's words, to be compared against the
source's `isAcceleratorValid`. -/

/-- Split a character list at every `'+'`. -/
def splitOnPlus : List Char → List (List Char)
  | [] => [[]]
  | c :: rest =>
      match splitOnPlus rest with
      | [] => [[c]]
      | t :: ts => if c = '+' then [] :: t :: ts else (c :: t) :: ts

/-- The specification's modifier tokens, lower-cased. -/
def specModifierToks : List (List Char) :=
  ["command".data, "commandorcontrol".data, "ctrl".data, "control".data,
   "alt".data, "option".data, "shift".data, "super".data, "meta".data]

/-- The specification's named key tokens, lower-cased. -/
def specKeyToks : List (List Char) :=
  ["f1".data, "f2".data, "f3".data, "f4".data, "f5".data, "f6".data,
   "f7".data, "f8".data, "f9".data, "f10".data, "f11".data, "f12".data,
   "plus".data, "space".data, "tab".data, "backspace".data, "delete".data,
   "insert".data, "return".data, "enter".data, "up".data, "down".data,
   "left".data, "right".data, "home".data, "end".data, "pageup".data,
   "pagedown".data, "escape".data, "volumeup".data, "volumedown".data,
   "volumemute".data, "medianexttrack".data, "mediaprevioustrack".data,
   "mediastop".data, "mediaplaypause".data]

/-- Alphanumeric character (either case, or digit). -/
def isAlnumChar (c : Char) : Bool :=
  ('a' ≤ c && c ≤ 'z') || ('A' ≤ c && c ≤ 'Z') || ('0' ≤ c && c ≤ '9')

/-- A token is a modifier token, case-insensitively. -/
def isSpecModifierTok (t : List Char) : Bool :=
  decide ((t.map Char.toLower) ∈ specModifierToks)

/-- A token is a key token: one alphanumeric character, or a recognized key
name (case-insensitively). -/
def isSpecKeyTok (t : List Char) : Bool :=
  (match t with
   | [c] => isAlnumChar c
   | _ => false) || decide ((t.map Char.toLower) ∈ specKeyToks)

/-- Validity as the specification's words describe it: at least one modifier
token and at least one key token among the `+`-separated tokens. -/
def specGrammarValid (s : List Char) : Bool :=
  let toks := splitOnPlus s
  toks.any isSpecModifierTok && toks.any isSpecKeyTok

/-! ### The registry operations -/

/-- Backend claim attempt (Electron `globalShortcut.register`): consumes the
next oracle answer and logs the call. -/
def tryClaim (w : World) (acc : String) : Bool × World :=
  let ok := w.oracle w.calls
  (ok, { w with calls := w.calls + 1,
                backendLog := w.backendLog ++ [BCall.tryClaim acc ok] })

/-- Source `register(id, accelerator, action, description)`.  In the model
the backend never throws, so the source's `catch` branch is unreachable. -/
def register (w : World) (id acc action description : String) : Result × World :=
  if acc ∈ w.registeredAccelerators then
    ({ success := false, error := some "Shortcut already registered",
       conflict := some true }, w)
  else if !isAcceleratorValidS acc then
    ({ success := false, error := some "Invalid accelerator format",
       conflict := some false }, w)
  else
    match tryClaim w acc with
    | (false, w1) =>
        ({ success := false,
           error := some "Failed to register shortcut (may be in use by system)",
           conflict := some true }, w1)
    | (true, w1) =>
        ({ success := true },
         { w1 with
            shortcuts := mapSet w1.shortcuts id
              ⟨acc, action, description, true, true⟩,
            registeredAccelerators := setAdd w1.registeredAccelerators acc,
            totalRegistered := w1.totalRegistered + 1 })

/-- Source `unregister(id)`: release the claim if held, then mark the binding
disabled and unclaimed, keeping it in the map. -/
def unregister (w : World) (id : String) : Result × World :=
  match mapGet w.shortcuts id with
  | none => ({ success := false, error := some "Shortcut not found" }, w)
  | some sc =>
      let w1 :=
        if sc.registered then
          { w with
              backendLog := w.backendLog ++ [BCall.release sc.accelerator],
              registeredAccelerators :=
                setDelete w.registeredAccelerators sc.accelerator }
        else w
      ({ success := true },
       { w1 with
          shortcuts := mapSet w1.shortcuts id
            { sc with enabled := false, registered := false } })

/-- Source `unregisterAll()`: `globalShortcut.unregisterAll()`, clear the
accelerator set, and mark every stored binding `registered := false`
(the `enabled` flag is left as it was). -/
def unregisterAll (w : World) : Result × World :=
  ({ success := true },
   { w with
      backendLog := w.backendLog ++ [BCall.releaseAll],
      registeredAccelerators := [],
      shortcuts := w.shortcuts.map (fun p => (p.1, { p.2 with registered := false })) })

/-- Source `findShortcutByAccelerator`. -/
def findShortcutByAccelerator (m : List (String × Binding)) (acc : String) :
    Option String :=
  match m with
  | [] => none
  | (id, sc) :: rest =>
      if sc.accelerator = acc then some id
      else findShortcutByAccelerator rest acc

/-- Source `update(id, newAccelerator)`.  On a rejected claim of the new
accelerator the source re-registers the old accelerator with the backend but
ignores the result of that call, changes no stored binding, and does not
restore the old accelerator in `registeredAccelerators`. -/
def update (w : World) (id newAcc : String) : Result × World :=
  match mapGet w.shortcuts id with
  | none => ({ success := false, error := some "Shortcut not found" }, w)
  | some sc =>
      if newAcc ∈ w.registeredAccelerators then
        ({ success := false, error := some "Accelerator already in use",
           conflict := some true,
           conflictWith := findShortcutByAccelerator w.shortcuts newAcc }, w)
      else
        let w1 :=
          if sc.registered then
            { w with
                backendLog := w.backendLog ++ [BCall.release sc.accelerator],
                registeredAccelerators :=
                  setDelete w.registeredAccelerators sc.accelerator }
          else w
        match tryClaim w1 newAcc with
        | (true, w2) =>
            ({ success := true },
             { w2 with
                shortcuts := mapSet w2.shortcuts id
                  { sc with accelerator := newAcc, registered := true },
                registeredAccelerators := setAdd w2.registeredAccelerators newAcc })
        | (false, w2) =>
            ({ success := false,
               error := some "Failed to register new shortcut (system conflict)",
               conflict := some true },
             (tryClaim w2 sc.accelerator).2)

/-- Source `enable(id)`: no-op success if already enabled and registered,
else delegate to `register` with the stored fields. -/
def enable (w : World) (id : String) : Result × World :=
  match mapGet w.shortcuts id with
  | none => ({ success := false, error := some "Shortcut not found" }, w)
  | some sc =>
      if sc.enabled && sc.registered then ({ success := true }, w)
      else register w id sc.accelerator sc.action sc.description

/-- Source `disable(id)` is exactly `unregister(id)`. -/
def disable (w : World) (id : String) : Result × World :=
  unregister w id

/-- Source `toggle(id)`. -/
def toggle (w : World) (id : String) : Result × World :=
  match mapGet w.shortcuts id with
  | none => ({ success := false, error := some "Shortcut not found" }, w)
  | some sc =>
      if sc.enabled && sc.registered then
        match disable w id with
        | (r, w') => ({ r with enabled := some false }, w')
      else
        match enable w id with
        | (r, w') => ({ r with enabled := some true }, w')

/-- Source `getAll()`: the list of `{id, ...config}` records. -/
def getAll (w : World) : List (String × Binding) :=
  w.shortcuts

/-- Source `get(id)`. -/
def get (w : World) (id : String) : Option (String × Binding) :=
  match mapGet w.shortcuts id with
  | none => none
  | some sc => some (id, sc)

/-- The built-in default shortcut set from the constructor. -/
def defaults : List (String × Config) :=
  [("show-hide-window",
    ⟨"CommandOrControl+Alt+E", "show-hide-window", "Show/Hide main window", true⟩),
   ("create-note",
    ⟨"CommandOrControl+Alt+N", "create-note", "Create new note", true⟩),
   ("capture-clipboard",
    ⟨"CommandOrControl+Alt+C", "capture-clipboard", "Capture clipboard content", true⟩),
   ("take-screenshot",
    ⟨"CommandOrControl+Alt+S", "take-screenshot", "Take screenshot", true⟩),
   ("quick-search",
    ⟨"CommandOrControl+Alt+Q", "quick-search", "Quick search", true⟩)]

/-- The per-entry loop of the source's `initialize`: register enabled entries,
store disabled ones with `registered: false`. -/
def initLoop (w : World) : List (String × Config) → World
  | [] => w
  | (id, c) :: rest =>
      let w' :=
        if c.enabled then (register w id c.accelerator c.action c.description).2
        else
          { w with
              shortcuts := mapSet w.shortcuts id
                ⟨c.accelerator, c.action, c.description, c.enabled, false⟩ }
      initLoop w' rest

/-- Source `initialize(savedShortcuts)`: `null` or an empty object falls back
to the built-in defaults. -/
def initShortcuts (w : World) (saved : Option (List (String × Config))) : World :=
  match saved with
  | none => initLoop w defaults
  | some cfg => if cfg.isEmpty then initLoop w defaults else initLoop w cfg

/-- Source `export()`: project every stored binding to its four
configuration fields. -/
def bindingConfig (b : Binding) : Config :=
  ⟨b.accelerator, b.action, b.description, b.enabled⟩

/-- Source `export()`. -/
def exportConfig (w : World) : List (String × Config) :=
  w.shortcuts.map (fun p => (p.1, bindingConfig p.2))

/-- Source `import(config)`: `unregisterAll`, clear the map, then run
`initialize(config)` (so an empty configuration loads the defaults). -/
def importConfig (w : World) (cfg : List (String × Config)) : Result × World :=
  let w1 := (unregisterAll w).2
  let w2 := { w1 with shortcuts := [] }
  ({ success := true }, initShortcuts w2 (some cfg))

/-- Source `resetToDefaults()`: `unregisterAll`, clear, re-run the
initialization with the built-in defaults. -/
def resetToDefaults (w : World) : Result × World :=
  let w1 := (unregisterAll w).2
  let w2 := { w1 with shortcuts := [] }
  ({ success := true }, initShortcuts w2 (some defaults))

/-! ### Trigger path (source: `handleShortcutTriggered` plus Node
`EventEmitter.emit` semantics)

A listener is modelled by whether it throws.  Node's `EventEmitter.emit`
invokes listeners synchronously in registration order; an exception thrown by
a listener propagates immediately, so listeners after the first throwing one
are not invoked.  `emitRun` returns the listeners that were actually run. -/

/-- The listeners actually invoked by `emit`: everything up to and including
the first throwing listener. -/
def emitRun : List Bool → List Bool
  | [] => []
  | throws :: rest => if throws then [throws] else throws :: emitRun rest

/-- Source `handleShortcutTriggered(id, action, accelerator)`: bump the
counter and record `lastTriggered` first, then emit `shortcut-triggered` to
the listeners.  The timestamp (`new Date().toISOString()`) is a parameter.
Returns the new state and the listeners that received the event. -/
def handleShortcutTriggered (w : World) (listeners : List Bool)
    (id action accelerator timestamp : String) : World × List Bool :=
  let w' := { w with
    totalTriggered := w.totalTriggered + 1,
    lastTriggered := some ⟨id, action, accelerator, timestamp⟩ }
  (w', emitRun listeners)

/-! ### Operation sequences

For the invariant claims we close the registry's public mutating surface
under sequencing.  The backend's behaviour along a run is the `oracle`
carried by the `World`, so quantifying over the oracle quantifies over every
backend behaviour. -/

/-- One call of the registry's mutating public surface. -/
inductive Op where
  | opRegister (id acc action description : String)
  | opUnregister (id : String)
  | opUpdate (id newAcc : String)
  | opEnable (id : String)
  | opDisable (id : String)
  | opToggle (id : String)
  | opUnregisterAll
  | opImport (cfg : List (String × Config))
  | opReset
deriving DecidableEq

/-- State after one operation. -/
def runOp (w : World) : Op → World
  | .opRegister id acc action description => (register w id acc action description).2
  | .opUnregister id => (unregister w id).2
  | .opUpdate id newAcc => (update w id newAcc).2
  | .opEnable id => (enable w id).2
  | .opDisable id => (disable w id).2
  | .opToggle id => (toggle w id).2
  | .opUnregisterAll => (unregisterAll w).2
  | .opImport cfg => (importConfig w cfg).2
  | .opReset => (resetToDefaults w).2

/-- State after a sequence of operations. -/
def runOps (w : World) : List Op → World
  | [] => w
  | op :: rest => runOps (runOp w op) rest

/-- Every step of the run satisfies `cond` in the state where it executes. -/
def stepOKb (cond : World → Op → Bool) : World → List Op → Bool
  | _, [] => true
  | w, op :: rest => cond w op && stepOKb cond (runOp w op) rest

/-- Does `update id newAcc` take the rollback path (new claim rejected by the
backend) while the binding currently holds a claim?  This is the one code
path that removes an accelerator from `registeredAccelerators` while its
binding keeps `registered = true`. -/
def updateBreaksIndex (w : World) (id newAcc : String) : Bool :=
  match mapGet w.shortcuts id with
  | none => false
  | some sc =>
      if newAcc ∈ w.registeredAccelerators then false
      else sc.registered && !(w.oracle w.calls)

/-- Does `update id newAcc` succeed on a binding whose `enabled` flag is
false?  This is the one code path that produces `registered = true` with
`enabled = false`. -/
def updateClaimsDisabled (w : World) (id newAcc : String) : Bool :=
  match mapGet w.shortcuts id with
  | none => false
  | some sc =>
      if newAcc ∈ w.registeredAccelerators then false
      else !sc.enabled && w.oracle w.calls

/-- Step condition for claim C1: no `update` takes the rollback path on a
claimed binding. -/
def condNoBrokenRollback (w : World) : Op → Bool
  | .opUpdate id newAcc => !updateBreaksIndex w id newAcc
  | _ => true

/-- Step condition for claim C4: no `update` succeeds on a disabled binding. -/
def condNoDisabledUpdate (w : World) : Op → Bool
  | .opUpdate id newAcc => !updateClaimsDisabled w id newAcc
  | _ => true

/-- The accelerators of the currently claimed (`registered = true`) bindings,
in map order. -/
def claimedAccs (m : List (String × Binding)) : List String :=
  (m.filter (fun p => p.2.registered)).map (fun p => p.2.accelerator)

/-- Boolean statement of P1/I1 over a `getAll()` snapshot: no two entries
share an accelerator with both `registered = true`. -/
def claimedPairwiseB : List (String × Binding) → Bool
  | [] => true
  | p :: rest =>
      (!p.2.registered ||
        rest.all (fun q => !q.2.registered || p.2.accelerator != q.2.accelerator))
      && claimedPairwiseB rest

/-- Boolean statement of invariant I2 over a `getAll()` snapshot: every
claimed binding is enabled. -/
def claimedImpliesEnabledB (m : List (String × Binding)) : Bool :=
  m.all (fun p => !p.2.registered || p.2.enabled)

/-! ### Concrete scenarios used by counterexamples and witnesses -/

/-- A backend that accepts every claim. -/
def oracleTrue : Nat → Bool := fun _ => true

/-- A backend that rejects exactly the second claim attempt (call index 1). -/
def oracleRejectSecond : Nat → Bool := fun n => n != 1

/-- A backend that accepts only the first claim attempt. -/
def oracleFirstOnly : Nat → Bool := fun n => n == 0

/-- Scenario for C1: register `"a"`, update it to a new accelerator whose
claim the backend rejects (rollback), then register `"b"` on the original
accelerator. -/
def opsC1 : List Op :=
  [.opRegister "a" "Ctrl+A" "act-a" "first binding",
   .opUpdate "a" "Alt+B",
   .opRegister "b" "Ctrl+A" "act-b" "second binding"]

/-- Scenario world for C2/C5: `"a"` registered on `Ctrl+A`, then
unregistered — the binding still holds `Ctrl+A` in the map. -/
def wStale : World :=
  runOps (initialWorld oracleTrue)
    [.opRegister "a" "Ctrl+A" "act-a" "first binding", .opUnregister "a"]

/-- Scenario world for C3/C10: `"showHide"` registered on its default
accelerator with a backend that accepts only that first claim. -/
def wShowHide : World :=
  (register (initialWorld oracleFirstOnly) "showHide"
    "CommandOrControl+Alt+E" "show-hide-window" "Show/Hide main window").2

/-- The C3/C10 failure state: update `"showHide"` to an accelerator the
backend rejects; the rollback re-claim of the old accelerator is also
rejected (oracle call 2). -/
def wRollback : World :=
  (update wShowHide "showHide" "CommandOrControl+Alt+Q").2

/-! ### Basic lemmas about the map, the set, and `claimedAccs` -/

theorem claimedAccs_nil : claimedAccs [] = [] := rfl

theorem claimedAccs_cons (k : String) (b : Binding) (rest : List (String × Binding)) :
    claimedAccs ((k, b) :: rest)
      = if b.registered then b.accelerator :: claimedAccs rest else claimedAccs rest := by
  by_cases h : b.registered = true <;>
    simp [claimedAccs, List.filter_cons, h]

theorem mem_claimedAccs_of_mem {m : List (String × Binding)} {p : String × Binding}
    (hp : p ∈ m) (hreg : p.2.registered = true) :
    p.2.accelerator ∈ claimedAccs m :=
  List.mem_map.mpr ⟨p, List.mem_filter.mpr ⟨hp, hreg⟩, rfl⟩

theorem exists_of_mem_claimedAccs {m : List (String × Binding)} {x : String}
    (hx : x ∈ claimedAccs m) :
    ∃ p, p ∈ m ∧ p.2.registered = true ∧ p.2.accelerator = x := by
  rcases List.mem_map.mp hx with ⟨p, hpf, rfl⟩
  rcases List.mem_filter.mp hpf with ⟨hm, hreg⟩
  exact ⟨p, hm, hreg, rfl⟩

theorem mapGet_mem {m : List (String × Binding)} {id : String} {sc : Binding}
    (h : mapGet m id = some sc) : (id, sc) ∈ m := by
  induction m with
  | nil => simp [mapGet] at h
  | cons hd tl ih =>
    obtain ⟨k, b⟩ := hd
    by_cases hk : k = id
    · subst hk
      simp [mapGet] at h
      subst h
      exact List.mem_cons_self _ _
    · simp [mapGet, hk] at h
      exact List.mem_cons_of_mem _ (ih h)

theorem mapGet_mapSet_self {m : List (String × Binding)} {k : String} {v : Binding} :
    mapGet (mapSet m k v) k = some v := by
  induction m with
  | nil => simp [mapSet, mapGet]
  | cons hd tl ih =>
    obtain ⟨k', v'⟩ := hd
    by_cases hk : k' = k
    · simp [mapSet, hk, mapGet]
    · simp [mapSet, hk, mapGet, ih]

theorem mem_mapSet {m : List (String × Binding)} {k : String} {v : Binding}
    {p : String × Binding} (hp : p ∈ mapSet m k v) : p = (k, v) ∨ p ∈ m := by
  induction m with
  | nil =>
    simp [mapSet] at hp
    exact Or.inl hp
  | cons hd tl ih =>
    obtain ⟨k', v'⟩ := hd
    by_cases hk : k' = k
    · simp only [mapSet, if_pos hk, List.mem_cons] at hp
      rcases hp with h | h
      · exact Or.inl h
      · exact Or.inr (List.mem_cons_of_mem _ h)
    · simp only [mapSet, if_neg hk, List.mem_cons] at hp
      rcases hp with h | h
      · exact Or.inr (h ▸ List.mem_cons_self _ _)
      · rcases ih h with h' | h'
        · exact Or.inl h'
        · exact Or.inr (List.mem_cons_of_mem _ h')

theorem mapSet_append_of_get_none {m : List (String × Binding)} {k : String}
    {v : Binding} (h : mapGet m k = none) : mapSet m k v = m ++ [(k, v)] := by
  induction m with
  | nil => simp [mapSet]
  | cons hd tl ih =>
    obtain ⟨k', v'⟩ := hd
    by_cases hk : k' = k
    · simp [mapGet, hk] at h
    · simp [mapGet, hk] at h
      simp [mapSet, hk, ih h]

theorem mapGet_append_of_none {m l : List (String × Binding)} {k : String}
    (h : mapGet m k = none) : mapGet (m ++ l) k = mapGet l k := by
  induction m with
  | nil => simp
  | cons hd tl ih =>
    obtain ⟨k', v'⟩ := hd
    by_cases hk : k' = k
    · simp [mapGet, hk] at h
    · simp [mapGet, hk] at h ⊢
      exact ih h

theorem mem_setAdd_iff {s : List String} {a x : String} :
    x ∈ setAdd s a ↔ x ∈ s ∨ x = a := by
  unfold setAdd
  by_cases h : a ∈ s
  · simp only [if_pos h]
    constructor
    · exact Or.inl
    · rintro (hx | rfl)
      · exact hx
      · exact h
  · simp [if_neg h, List.mem_append]

theorem mem_setDelete_iff {s : List String} {a x : String} :
    x ∈ setDelete s a ↔ x ∈ s ∧ x ≠ a := by
  unfold setDelete
  simp [List.mem_filter]

theorem claimedAccs_mapSet_nodup {m : List (String × Binding)} {k : String} {v : Binding}
    (hnd : (claimedAccs m).Nodup)
    (hv : v.registered = true → v.accelerator ∉ claimedAccs m) :
    (claimedAccs (mapSet m k v)).Nodup := by
  induction m with
  | nil =>
    by_cases hr : v.registered = true <;>
      simp [mapSet, claimedAccs_cons, hr, claimedAccs_nil]
  | cons hd tl ih =>
    obtain ⟨k', b⟩ := hd
    rw [claimedAccs_cons] at hnd
    by_cases hk : k' = k
    · have hms : mapSet ((k', b) :: tl) k v = (k, v) :: tl := by
        simp [mapSet, hk]
      rw [hms, claimedAccs_cons]
      have htl : (claimedAccs tl).Nodup := by
        by_cases hb : b.registered = true
        · rw [if_pos hb] at hnd; exact (List.nodup_cons.mp hnd).2
        · rwa [if_neg hb] at hnd
      by_cases hr : v.registered = true
      · rw [if_pos hr]
        refine List.nodup_cons.mpr ⟨?_, htl⟩
        intro hmem
        apply hv hr
        rw [claimedAccs_cons]
        by_cases hb : b.registered = true
        · rw [if_pos hb]; exact List.mem_cons_of_mem _ hmem
        · rwa [if_neg hb]
      · rwa [if_neg hr]
    · have hms : mapSet ((k', b) :: tl) k v = (k', b) :: mapSet tl k v := by
        simp [mapSet, hk]
      rw [hms, claimedAccs_cons]
      by_cases hb : b.registered = true
      · rw [if_pos hb]
        rw [if_pos hb] at hnd
        have h1 : b.accelerator ∉ claimedAccs tl := (List.nodup_cons.mp hnd).1
        have h2 : (claimedAccs tl).Nodup := (List.nodup_cons.mp hnd).2
        have hv' : v.registered = true → v.accelerator ∉ claimedAccs tl := by
          intro hr hmem
          apply hv hr
          rw [claimedAccs_cons, if_pos hb]
          exact List.mem_cons_of_mem _ hmem
        refine List.nodup_cons.mpr ⟨?_, ih h2 hv'⟩
        intro hmem
        rcases exists_of_mem_claimedAccs hmem with ⟨p, hpmem, hpreg, hpacc⟩
        rcases mem_mapSet hpmem with rfl | hptl
        · have hvreg : v.registered = true := hpreg
          have hmem2 : v.accelerator ∈ claimedAccs ((k', b) :: tl) := by
            rw [claimedAccs_cons, if_pos hb, hpacc]
            exact List.mem_cons_self _ _
          exact hv hvreg hmem2
        · have hmem2 : p.2.accelerator ∈ claimedAccs tl :=
            mem_claimedAccs_of_mem hptl hpreg
          rw [hpacc] at hmem2
          exact h1 hmem2
      · rw [if_neg hb]
        rw [if_neg hb] at hnd
        have hv' : v.registered = true → v.accelerator ∉ claimedAccs tl := by
          intro hr hmem
          apply hv hr
          rwa [claimedAccs_cons, if_neg hb]
        exact ih hnd hv'

theorem claimedAccs_mapSet_of_get {m : List (String × Binding)} {id : String}
    {sc : Binding} (v : Binding) (hget : mapGet m id = some sc)
    (hnd : (claimedAccs m).Nodup) :
    ∀ x ∈ claimedAccs (mapSet m id v),
      (v.registered = true ∧ x = v.accelerator) ∨
      (x ∈ claimedAccs m ∧ (sc.registered = true → x ≠ sc.accelerator)) := by
  induction m with
  | nil => simp [mapGet] at hget
  | cons hd tl ih =>
    obtain ⟨k, b⟩ := hd
    rw [claimedAccs_cons] at hnd
    by_cases hk : k = id
    · subst hk
      have hscb : b = sc := by simpa [mapGet] using hget
      subst hscb
      have hms : mapSet ((k, b) :: tl) k v = (k, v) :: tl := by simp [mapSet]
      intro x hx
      rw [hms, claimedAccs_cons] at hx
      have htl : ∀ y ∈ claimedAccs tl,
          y ∈ claimedAccs ((k, b) :: tl) ∧ (b.registered = true → y ≠ b.accelerator) := by
        intro y hy
        rw [claimedAccs_cons]
        by_cases hb : b.registered = true
        · rw [if_pos hb] at hnd ⊢
          refine ⟨List.mem_cons_of_mem _ hy, fun _ heq => ?_⟩
          exact (List.nodup_cons.mp hnd).1 (heq ▸ hy)
        · rw [if_neg hb]
          exact ⟨hy, fun hb' => absurd hb' hb⟩
      by_cases hr : v.registered = true
      · rw [if_pos hr] at hx
        rcases List.mem_cons.mp hx with rfl | hx'
        · exact Or.inl ⟨hr, rfl⟩
        · exact Or.inr (htl x hx')
      · rw [if_neg hr] at hx
        exact Or.inr (htl x hx)
    · have hms : mapSet ((k, b) :: tl) id v = (k, b) :: mapSet tl id v := by
        simp [mapSet, hk]
      have hget' : mapGet tl id = some sc := by simpa [mapGet, hk] using hget
      intro x hx
      rw [hms, claimedAccs_cons] at hx
      by_cases hb : b.registered = true
      · rw [if_pos hb] at hnd hx
        have h1 : b.accelerator ∉ claimedAccs tl := (List.nodup_cons.mp hnd).1
        have h2 : (claimedAccs tl).Nodup := (List.nodup_cons.mp hnd).2
        rcases List.mem_cons.mp hx with rfl | hx'
        · refine Or.inr ⟨?_, fun hscreg heq => ?_⟩
          · rw [claimedAccs_cons, if_pos hb]
            exact List.mem_cons_self _ _
          · have hscmem : sc.accelerator ∈ claimedAccs tl :=
              mem_claimedAccs_of_mem (mapGet_mem hget') hscreg
            exact h1 (heq ▸ hscmem)
        · rcases ih hget' h2 x hx' with h | ⟨hmem, himp⟩
          · exact Or.inl h
          · refine Or.inr ⟨?_, himp⟩
            rw [claimedAccs_cons, if_pos hb]
            exact List.mem_cons_of_mem _ hmem
      · rw [if_neg hb] at hnd hx
        rcases ih hget' hnd x hx with h | ⟨hmem, himp⟩
        · exact Or.inl h
        · refine Or.inr ⟨?_, himp⟩
          rwa [claimedAccs_cons, if_neg hb]

theorem claimedAccs_markAllUnregistered (m : List (String × Binding)) :
    claimedAccs (m.map (fun p => (p.1, { p.2 with registered := false }))) = [] := by
  induction m with
  | nil => rfl
  | cons hd tl ih =>
    simp only [List.map_cons, claimedAccs_cons]
    simpa using ih

theorem claimedPairwiseB_of_nodup {m : List (String × Binding)}
    (h : (claimedAccs m).Nodup) : claimedPairwiseB m = true := by
  induction m with
  | nil => rfl
  | cons p rest ih =>
    obtain ⟨k, b⟩ := p
    rw [claimedAccs_cons] at h
    unfold claimedPairwiseB
    rw [Bool.and_eq_true]
    by_cases hb : b.registered = true
    · rw [if_pos hb] at h
      have h1 : b.accelerator ∉ claimedAccs rest := (List.nodup_cons.mp h).1
      have h2 : (claimedAccs rest).Nodup := (List.nodup_cons.mp h).2
      refine ⟨?_, ih h2⟩
      simp only [hb, Bool.not_true, Bool.false_or]
      rw [List.all_eq_true]
      intro q hq
      by_cases hq2 : q.2.registered = true
      · simp only [hq2, Bool.not_true, Bool.false_or]
        rw [bne_iff_ne]
        intro heq
        exact h1 (heq ▸ mem_claimedAccs_of_mem hq hq2)
      · have hq3 : q.2.registered = false := by
          cases hqv : q.2.registered
          · rfl
          · exact absurd hqv hq2
        simp [hq3]
    · rw [if_neg hb] at h
      have hb' : b.registered = false := by
        cases hbv : b.registered
        · rfl
        · exact absurd hbv hb
      exact ⟨by simp [hb'], ih h⟩

/-! ### Branch characterizations of the operations -/

theorem register_eq_dup {w : World} {id acc a d : String}
    (h1 : acc ∈ w.registeredAccelerators) :
    register w id acc a d =
      ({ success := false, error := some "Shortcut already registered",
         conflict := some true }, w) := by
  unfold register
  rw [if_pos h1]

theorem register_eq_invalid {w : World} {id acc a d : String}
    (h1 : acc ∉ w.registeredAccelerators) (h2 : isAcceleratorValidS acc = false) :
    register w id acc a d =
      ({ success := false, error := some "Invalid accelerator format",
         conflict := some false }, w) := by
  unfold register
  rw [if_neg h1, h2]
  simp

theorem register_eq_reject {w : World} {id acc a d : String}
    (h1 : acc ∉ w.registeredAccelerators) (h2 : isAcceleratorValidS acc = true)
    (h3 : w.oracle w.calls = false) :
    register w id acc a d =
      ({ success := false,
         error := some "Failed to register shortcut (may be in use by system)",
         conflict := some true },
       { w with calls := w.calls + 1,
                backendLog := w.backendLog ++ [BCall.tryClaim acc false] }) := by
  unfold register tryClaim
  rw [if_neg h1, h2, h3]
  simp

theorem register_eq_success {w : World} {id acc a d : String}
    (h1 : acc ∉ w.registeredAccelerators) (h2 : isAcceleratorValidS acc = true)
    (h3 : w.oracle w.calls = true) :
    register w id acc a d =
      ({ success := true },
       { w with
          shortcuts := mapSet w.shortcuts id ⟨acc, a, d, true, true⟩,
          registeredAccelerators := setAdd w.registeredAccelerators acc,
          totalRegistered := w.totalRegistered + 1,
          calls := w.calls + 1,
          backendLog := w.backendLog ++ [BCall.tryClaim acc true] }) := by
  unfold register tryClaim
  rw [if_neg h1, h2, h3]
  simp

theorem unregister_eq_notFound {w : World} {id : String}
    (h : mapGet w.shortcuts id = none) :
    unregister w id =
      ({ success := false, error := some "Shortcut not found" }, w) := by
  unfold unregister
  rw [h]

theorem unregister_eq_found_registered {w : World} {id : String} {sc : Binding}
    (h : mapGet w.shortcuts id = some sc) (hreg : sc.registered = true) :
    unregister w id =
      ({ success := true },
       { w with
          shortcuts := mapSet w.shortcuts id
            { sc with enabled := false, registered := false },
          registeredAccelerators := setDelete w.registeredAccelerators sc.accelerator,
          backendLog := w.backendLog ++ [BCall.release sc.accelerator] }) := by
  unfold unregister
  rw [h]
  simp [hreg]

theorem unregister_eq_found_unregistered {w : World} {id : String} {sc : Binding}
    (h : mapGet w.shortcuts id = some sc) (hreg : sc.registered = false) :
    unregister w id =
      ({ success := true },
       { w with
          shortcuts := mapSet w.shortcuts id
            { sc with enabled := false, registered := false } }) := by
  unfold unregister
  rw [h]
  simp [hreg]

theorem unregisterAll_eq (w : World) :
    unregisterAll w =
      ({ success := true },
       { w with
          backendLog := w.backendLog ++ [BCall.releaseAll],
          registeredAccelerators := [],
          shortcuts := w.shortcuts.map
            (fun p => (p.1, { p.2 with registered := false })) }) := rfl

theorem update_eq_notFound {w : World} {id newAcc : String}
    (h : mapGet w.shortcuts id = none) :
    update w id newAcc =
      ({ success := false, error := some "Shortcut not found" }, w) := by
  unfold update
  rw [h]

theorem update_eq_conflict {w : World} {id newAcc : String} {sc : Binding}
    (h : mapGet w.shortcuts id = some sc)
    (hdup : newAcc ∈ w.registeredAccelerators) :
    update w id newAcc =
      ({ success := false, error := some "Accelerator already in use",
         conflict := some true,
         conflictWith := findShortcutByAccelerator w.shortcuts newAcc }, w) := by
  unfold update
  rw [h]
  simp [if_pos hdup]

theorem update_eq_success_registered {w : World} {id newAcc : String} {sc : Binding}
    (h : mapGet w.shortcuts id = some sc)
    (hdup : newAcc ∉ w.registeredAccelerators)
    (hreg : sc.registered = true)
    (hok : w.oracle w.calls = true) :
    update w id newAcc =
      ({ success := true },
       { w with
          shortcuts := mapSet w.shortcuts id
            { sc with accelerator := newAcc, registered := true },
          registeredAccelerators :=
            setAdd (setDelete w.registeredAccelerators sc.accelerator) newAcc,
          calls := w.calls + 1,
          backendLog := w.backendLog ++
            [BCall.release sc.accelerator, BCall.tryClaim newAcc true] }) := by
  unfold update tryClaim
  rw [h]
  simp only [if_neg hdup, hreg, if_true]
  simp [hok]

theorem update_eq_success_unregistered {w : World} {id newAcc : String} {sc : Binding}
    (h : mapGet w.shortcuts id = some sc)
    (hdup : newAcc ∉ w.registeredAccelerators)
    (hreg : sc.registered = false)
    (hok : w.oracle w.calls = true) :
    update w id newAcc =
      ({ success := true },
       { w with
          shortcuts := mapSet w.shortcuts id
            { sc with accelerator := newAcc, registered := true },
          registeredAccelerators := setAdd w.registeredAccelerators newAcc,
          calls := w.calls + 1,
          backendLog := w.backendLog ++ [BCall.tryClaim newAcc true] }) := by
  unfold update tryClaim
  rw [h]
  simp only [if_neg hdup, hreg]
  simp [hok]

theorem update_eq_rollback_registered {w : World} {id newAcc : String} {sc : Binding}
    (h : mapGet w.shortcuts id = some sc)
    (hdup : newAcc ∉ w.registeredAccelerators)
    (hreg : sc.registered = true)
    (hok : w.oracle w.calls = false) :
    update w id newAcc =
      ({ success := false,
         error := some "Failed to register new shortcut (system conflict)",
         conflict := some true },
       { w with
          registeredAccelerators := setDelete w.registeredAccelerators sc.accelerator,
          calls := w.calls + 2,
          backendLog := w.backendLog ++
            [BCall.release sc.accelerator, BCall.tryClaim newAcc false,
             BCall.tryClaim sc.accelerator (w.oracle (w.calls + 1))] }) := by
  unfold update tryClaim
  rw [h]
  simp only [if_neg hdup, hreg, if_true]
  simp [hok]

theorem update_eq_rollback_unregistered {w : World} {id newAcc : String} {sc : Binding}
    (h : mapGet w.shortcuts id = some sc)
    (hdup : newAcc ∉ w.registeredAccelerators)
    (hreg : sc.registered = false)
    (hok : w.oracle w.calls = false) :
    update w id newAcc =
      ({ success := false,
         error := some "Failed to register new shortcut (system conflict)",
         conflict := some true },
       { w with
          calls := w.calls + 2,
          backendLog := w.backendLog ++
            [BCall.tryClaim newAcc false,
             BCall.tryClaim sc.accelerator (w.oracle (w.calls + 1))] }) := by
  unfold update tryClaim
  rw [h]
  simp only [if_neg hdup, hreg]
  simp [hok]

theorem claimedAccs_mapSet_mem_cases {m : List (String × Binding)} {k : String}
    {v : Binding} {x : String} (hx : x ∈ claimedAccs (mapSet m k v)) :
    x ∈ claimedAccs m ∨ (v.registered = true ∧ x = v.accelerator) := by
  rcases exists_of_mem_claimedAccs hx with ⟨p, hpmem, hpreg, rfl⟩
  rcases mem_mapSet hpmem with rfl | hpm
  · exact Or.inr ⟨hpreg, rfl⟩
  · exact Or.inl (mem_claimedAccs_of_mem hpm hpreg)

/-! ### Further branch characterizations (`enable`, `toggle`, `initLoop`) -/

theorem enable_eq_notFound {w : World} {id : String}
    (h : mapGet w.shortcuts id = none) :
    enable w id = ({ success := false, error := some "Shortcut not found" }, w) := by
  unfold enable
  rw [h]

theorem enable_eq_already {w : World} {id : String} {sc : Binding}
    (h : mapGet w.shortcuts id = some sc)
    (hb : (sc.enabled && sc.registered) = true) :
    enable w id = ({ success := true }, w) := by
  unfold enable
  rw [h]
  simp [hb]

theorem enable_eq_register {w : World} {id : String} {sc : Binding}
    (h : mapGet w.shortcuts id = some sc)
    (hb : (sc.enabled && sc.registered) = false) :
    enable w id = register w id sc.accelerator sc.action sc.description := by
  unfold enable
  rw [h]
  simp [hb]

theorem toggle_eq_notFound {w : World} {id : String}
    (h : mapGet w.shortcuts id = none) :
    toggle w id = ({ success := false, error := some "Shortcut not found" }, w) := by
  unfold toggle
  rw [h]

theorem toggle_eq_active {w : World} {id : String} {sc : Binding}
    (h : mapGet w.shortcuts id = some sc)
    (hb : (sc.enabled && sc.registered) = true) :
    toggle w id =
      ({ (unregister w id).1 with enabled := some false }, (unregister w id).2) := by
  unfold toggle disable
  rw [h]
  rcases hu : unregister w id with ⟨r, w2⟩
  simp [hb, hu]

theorem toggle_eq_inactive {w : World} {id : String} {sc : Binding}
    (h : mapGet w.shortcuts id = some sc)
    (hb : (sc.enabled && sc.registered) = false) :
    toggle w id =
      ({ (enable w id).1 with enabled := some true }, (enable w id).2) := by
  unfold toggle
  rw [h]
  rcases he : enable w id with ⟨r, w2⟩
  simp [hb, he]

theorem initLoop_cons_enabled {w : World} {id : String} {c : Config}
    {tl : List (String × Config)} (hc : c.enabled = true) :
    initLoop w ((id, c) :: tl) =
      initLoop (register w id c.accelerator c.action c.description).2 tl := by
  simp [initLoop, hc]

theorem initLoop_cons_disabled {w : World} {id : String} {c : Config}
    {tl : List (String × Config)} (hc : c.enabled = false) :
    initLoop w ((id, c) :: tl) =
      initLoop
        { w with
            shortcuts := mapSet w.shortcuts id
              ⟨c.accelerator, c.action, c.description, c.enabled, false⟩ } tl := by
  simp [initLoop, hc]

/-! ### Invariant behind P1/I1 and its preservation -/

/-- The inductive invariant for claim C1: claimed accelerators are pairwise
distinct, and every claimed accelerator is tracked in
`registeredAccelerators`. -/
def Inv1 (w : World) : Prop :=
  (claimedAccs w.shortcuts).Nodup ∧
  ∀ x ∈ claimedAccs w.shortcuts, x ∈ w.registeredAccelerators

theorem register_inv1 (w : World) (id acc a d : String) (h : Inv1 w) :
    Inv1 (register w id acc a d).2 := by
  obtain ⟨hnd, hsub⟩ := h
  by_cases h1 : acc ∈ w.registeredAccelerators
  · rw [register_eq_dup h1]; exact ⟨hnd, hsub⟩
  · cases h2 : isAcceleratorValidS acc
    · rw [register_eq_invalid h1 h2]; exact ⟨hnd, hsub⟩
    · cases h3 : w.oracle w.calls
      · rw [register_eq_reject h1 h2 h3]; exact ⟨hnd, hsub⟩
      · rw [register_eq_success h1 h2 h3]
        refine ⟨claimedAccs_mapSet_nodup hnd ?_, ?_⟩
        · exact fun _ hmem => h1 (hsub _ hmem)
        · intro x hx
          rcases claimedAccs_mapSet_mem_cases hx with hm | ⟨_, rfl⟩
          · exact mem_setAdd_iff.mpr (Or.inl (hsub _ hm))
          · exact mem_setAdd_iff.mpr (Or.inr rfl)

theorem unregister_inv1 (w : World) (id : String) (h : Inv1 w) :
    Inv1 (unregister w id).2 := by
  obtain ⟨hnd, hsub⟩ := h
  cases hget : mapGet w.shortcuts id with
  | none => rw [unregister_eq_notFound hget]; exact ⟨hnd, hsub⟩
  | some sc =>
    cases hreg : sc.registered
    · rw [unregister_eq_found_unregistered hget hreg]
      refine ⟨claimedAccs_mapSet_nodup hnd ?_, ?_⟩
      · intro hv; simp at hv
      · intro x hx
        rcases claimedAccs_mapSet_mem_cases hx with hm | ⟨hvreg, _⟩
        · exact hsub _ hm
        · simp at hvreg
    · rw [unregister_eq_found_registered hget hreg]
      refine ⟨claimedAccs_mapSet_nodup hnd ?_, ?_⟩
      · intro hv; simp at hv
      · intro x hx
        rcases claimedAccs_mapSet_of_get _ hget hnd x hx with ⟨hvreg, _⟩ | ⟨hm, himp⟩
        · simp at hvreg
        · exact mem_setDelete_iff.mpr ⟨hsub _ hm, himp hreg⟩

theorem unregisterAll_inv1 (w : World) : Inv1 (unregisterAll w).2 := by
  rw [unregisterAll_eq]
  refine ⟨?_, ?_⟩ <;> simp [Inv1, claimedAccs_markAllUnregistered]

theorem inv1_clear (w : World) : Inv1 { w with shortcuts := [] } := by
  refine ⟨?_, ?_⟩ <;> simp [claimedAccs_nil]

theorem inv1_store_disabled (w : World) (id : String) (c : Config) (h : Inv1 w) :
    Inv1
      { w with
          shortcuts := mapSet w.shortcuts id
            ⟨c.accelerator, c.action, c.description, c.enabled, false⟩ } := by
  obtain ⟨hnd, hsub⟩ := h
  refine ⟨claimedAccs_mapSet_nodup hnd ?_, ?_⟩
  · intro hv; simp at hv
  · intro x hx
    rcases claimedAccs_mapSet_mem_cases hx with hm | ⟨hvreg, _⟩
    · exact hsub _ hm
    · simp at hvreg

theorem initLoop_inv1 (cfg : List (String × Config)) :
    ∀ w : World, Inv1 w → Inv1 (initLoop w cfg) := by
  induction cfg with
  | nil => exact fun w h => h
  | cons hd tl ih =>
    intro w h
    obtain ⟨id, c⟩ := hd
    cases hc : c.enabled
    · rw [initLoop_cons_disabled hc]
      exact ih _ (inv1_store_disabled w id c h)
    · rw [initLoop_cons_enabled hc]
      exact ih _ (register_inv1 w id c.accelerator c.action c.description h)

theorem initShortcuts_inv1 (w : World) (saved : Option (List (String × Config)))
    (h : Inv1 w) : Inv1 (initShortcuts w saved) := by
  unfold initShortcuts
  cases saved with
  | none => exact initLoop_inv1 _ _ h
  | some cfg =>
    by_cases hc : cfg.isEmpty = true
    · simp only [hc, if_true]
      exact initLoop_inv1 _ _ h
    · simp only [hc]
      simp only [if_neg, Bool.false_eq_true]
      exact initLoop_inv1 _ _ h

theorem importConfig_inv1 (w : World) (cfg : List (String × Config)) :
    Inv1 (importConfig w cfg).2 := by
  unfold importConfig
  exact initShortcuts_inv1 _ _ (inv1_clear _)

theorem resetToDefaults_inv1 (w : World) : Inv1 (resetToDefaults w).2 := by
  unfold resetToDefaults
  exact initShortcuts_inv1 _ _ (inv1_clear _)

theorem update_inv1 (w : World) (id newAcc : String) (h : Inv1 w)
    (hc : updateBreaksIndex w id newAcc = false) :
    Inv1 (update w id newAcc).2 := by
  obtain ⟨hnd, hsub⟩ := h
  cases hget : mapGet w.shortcuts id with
  | none => rw [update_eq_notFound hget]; exact ⟨hnd, hsub⟩
  | some sc =>
    by_cases hdup : newAcc ∈ w.registeredAccelerators
    · rw [update_eq_conflict hget hdup]; exact ⟨hnd, hsub⟩
    · have hvne : newAcc ∉ claimedAccs w.shortcuts := fun hm => hdup (hsub _ hm)
      cases hok : w.oracle w.calls
      · cases hreg : sc.registered
        · rw [update_eq_rollback_unregistered hget hdup hreg hok]
          exact ⟨hnd, hsub⟩
        · exfalso
          simp [updateBreaksIndex, hget, hdup, hreg, hok] at hc
      · cases hreg : sc.registered
        · rw [update_eq_success_unregistered hget hdup hreg hok]
          refine ⟨claimedAccs_mapSet_nodup hnd ?_, ?_⟩
          · exact fun _ => hvne
          · intro x hx
            rcases claimedAccs_mapSet_mem_cases hx with hm | ⟨_, rfl⟩
            · exact mem_setAdd_iff.mpr (Or.inl (hsub _ hm))
            · exact mem_setAdd_iff.mpr (Or.inr rfl)
        · rw [update_eq_success_registered hget hdup hreg hok]
          refine ⟨claimedAccs_mapSet_nodup hnd ?_, ?_⟩
          · exact fun _ => hvne
          · intro x hx
            rcases claimedAccs_mapSet_of_get _ hget hnd x hx with ⟨_, rfl⟩ | ⟨hm, himp⟩
            · exact mem_setAdd_iff.mpr (Or.inr rfl)
            · exact mem_setAdd_iff.mpr
                (Or.inl (mem_setDelete_iff.mpr ⟨hsub _ hm, himp hreg⟩))

theorem enable_inv1 (w : World) (id : String) (h : Inv1 w) :
    Inv1 (enable w id).2 := by
  cases hget : mapGet w.shortcuts id with
  | none => rw [enable_eq_notFound hget]; exact h
  | some sc =>
    cases hb : sc.enabled && sc.registered
    · rw [enable_eq_register hget hb]
      exact register_inv1 _ _ _ _ _ h
    · rw [enable_eq_already hget hb]
      exact h

theorem toggle_inv1 (w : World) (id : String) (h : Inv1 w) :
    Inv1 (toggle w id).2 := by
  cases hget : mapGet w.shortcuts id with
  | none => rw [toggle_eq_notFound hget]; exact h
  | some sc =>
    cases hb : sc.enabled && sc.registered
    · rw [toggle_eq_inactive hget hb]
      exact enable_inv1 _ _ h
    · rw [toggle_eq_active hget hb]
      exact unregister_inv1 _ _ h

theorem runOp_inv1 (w : World) (op : Op) (h : Inv1 w)
    (hc : condNoBrokenRollback w op = true) : Inv1 (runOp w op) := by
  cases op with
  | opRegister id acc a d => exact register_inv1 w id acc a d h
  | opUnregister id => exact unregister_inv1 w id h
  | opUpdate id newAcc =>
      refine update_inv1 w id newAcc h ?_
      simpa [condNoBrokenRollback] using hc
  | opEnable id => exact enable_inv1 w id h
  | opDisable id => exact unregister_inv1 w id h
  | opToggle id => exact toggle_inv1 w id h
  | opUnregisterAll => exact unregisterAll_inv1 w
  | opImport cfg => exact importConfig_inv1 w cfg
  | opReset => exact resetToDefaults_inv1 w

theorem runOps_inv1 (ops : List Op) : ∀ w : World, Inv1 w →
    stepOKb condNoBrokenRollback w ops = true → Inv1 (runOps w ops) := by
  induction ops with
  | nil => exact fun w h _ => h
  | cons op rest ih =>
    intro w h hok
    rw [stepOKb, Bool.and_eq_true] at hok
    exact ih _ (runOp_inv1 w op h hok.1) hok.2

theorem stepOKb_take (cond : World → Op → Bool) (ops : List Op) :
    ∀ (w : World) (n : Nat), stepOKb cond w ops = true →
      stepOKb cond w (ops.take n) = true := by
  induction ops with
  | nil => intro w n _; simp [stepOKb]
  | cons op rest ih =>
    intro w n hok
    cases n with
    | zero => rfl
    | succ n =>
      rw [stepOKb, Bool.and_eq_true] at hok
      rw [List.take_succ_cons, stepOKb, Bool.and_eq_true]
      exact ⟨hok.1, ih _ n hok.2⟩

/-! ### Invariant behind I2 (claim C4) and its preservation -/

/-- The inductive invariant for claim C4: every claimed binding is enabled. -/
def Inv2 (w : World) : Prop :=
  ∀ p ∈ w.shortcuts, p.2.registered = true → p.2.enabled = true

theorem register_inv2 (w : World) (id acc a d : String) (h : Inv2 w) :
    Inv2 (register w id acc a d).2 := by
  by_cases h1 : acc ∈ w.registeredAccelerators
  · rw [register_eq_dup h1]; exact h
  · cases h2 : isAcceleratorValidS acc
    · rw [register_eq_invalid h1 h2]; exact h
    · cases h3 : w.oracle w.calls
      · rw [register_eq_reject h1 h2 h3]; exact h
      · rw [register_eq_success h1 h2 h3]
        intro p hp hr
        rcases mem_mapSet hp with rfl | hm
        · rfl
        · exact h p hm hr

theorem unregister_inv2 (w : World) (id : String) (h : Inv2 w) :
    Inv2 (unregister w id).2 := by
  cases hget : mapGet w.shortcuts id with
  | none => rw [unregister_eq_notFound hget]; exact h
  | some sc =>
    cases hreg : sc.registered
    · rw [unregister_eq_found_unregistered hget hreg]
      intro p hp hr
      rcases mem_mapSet hp with rfl | hm
      · simp at hr
      · exact h p hm hr
    · rw [unregister_eq_found_registered hget hreg]
      intro p hp hr
      rcases mem_mapSet hp with rfl | hm
      · simp at hr
      · exact h p hm hr

theorem unregisterAll_inv2 (w : World) : Inv2 (unregisterAll w).2 := by
  rw [unregisterAll_eq]
  intro p hp hr
  rcases List.mem_map.mp hp with ⟨q, hq, rfl⟩
  simp at hr

theorem inv2_clear (w : World) : Inv2 { w with shortcuts := [] } := by
  intro p hp
  simp at hp

theorem inv2_store_disabled (w : World) (id : String) (c : Config) (h : Inv2 w) :
    Inv2
      { w with
          shortcuts := mapSet w.shortcuts id
            ⟨c.accelerator, c.action, c.description, c.enabled, false⟩ } := by
  intro p hp hr
  rcases mem_mapSet hp with rfl | hm
  · simp at hr
  · exact h p hm hr

theorem initLoop_inv2 (cfg : List (String × Config)) :
    ∀ w : World, Inv2 w → Inv2 (initLoop w cfg) := by
  induction cfg with
  | nil => exact fun w h => h
  | cons hd tl ih =>
    intro w h
    obtain ⟨id, c⟩ := hd
    cases hc : c.enabled
    · rw [initLoop_cons_disabled hc]
      exact ih _ (inv2_store_disabled w id c h)
    · rw [initLoop_cons_enabled hc]
      exact ih _ (register_inv2 w id c.accelerator c.action c.description h)

theorem initShortcuts_inv2 (w : World) (saved : Option (List (String × Config)))
    (h : Inv2 w) : Inv2 (initShortcuts w saved) := by
  unfold initShortcuts
  cases saved with
  | none => exact initLoop_inv2 _ _ h
  | some cfg =>
    by_cases hc : cfg.isEmpty = true
    · simp only [hc, if_true]
      exact initLoop_inv2 _ _ h
    · simp only [hc]
      simp only [if_neg, Bool.false_eq_true]
      exact initLoop_inv2 _ _ h

theorem importConfig_inv2 (w : World) (cfg : List (String × Config)) :
    Inv2 (importConfig w cfg).2 := by
  unfold importConfig
  exact initShortcuts_inv2 _ _ (inv2_clear _)

theorem resetToDefaults_inv2 (w : World) : Inv2 (resetToDefaults w).2 := by
  unfold resetToDefaults
  exact initShortcuts_inv2 _ _ (inv2_clear _)

theorem update_inv2 (w : World) (id newAcc : String) (h : Inv2 w)
    (hc : updateClaimsDisabled w id newAcc = false) :
    Inv2 (update w id newAcc).2 := by
  cases hget : mapGet w.shortcuts id with
  | none => rw [update_eq_notFound hget]; exact h
  | some sc =>
    by_cases hdup : newAcc ∈ w.registeredAccelerators
    · rw [update_eq_conflict hget hdup]; exact h
    · cases hok : w.oracle w.calls
      · cases hreg : sc.registered
        · rw [update_eq_rollback_unregistered hget hdup hreg hok]; exact h
        · rw [update_eq_rollback_registered hget hdup hreg hok]; exact h
      · have hen : sc.enabled = true := by
          by_contra hne
          have hef : sc.enabled = false := by
            cases he : sc.enabled
            · rfl
            · exact absurd he hne
          simp [updateClaimsDisabled, hget, hdup, hef, hok] at hc
        cases hreg : sc.registered
        · rw [update_eq_success_unregistered hget hdup hreg hok]
          intro p hp hr
          rcases mem_mapSet hp with rfl | hm
          · exact hen
          · exact h p hm hr
        · rw [update_eq_success_registered hget hdup hreg hok]
          intro p hp hr
          rcases mem_mapSet hp with rfl | hm
          · exact hen
          · exact h p hm hr

theorem enable_inv2 (w : World) (id : String) (h : Inv2 w) :
    Inv2 (enable w id).2 := by
  cases hget : mapGet w.shortcuts id with
  | none => rw [enable_eq_notFound hget]; exact h
  | some sc =>
    cases hb : sc.enabled && sc.registered
    · rw [enable_eq_register hget hb]
      exact register_inv2 _ _ _ _ _ h
    · rw [enable_eq_already hget hb]
      exact h

theorem toggle_inv2 (w : World) (id : String) (h : Inv2 w) :
    Inv2 (toggle w id).2 := by
  cases hget : mapGet w.shortcuts id with
  | none => rw [toggle_eq_notFound hget]; exact h
  | some sc =>
    cases hb : sc.enabled && sc.registered
    · rw [toggle_eq_inactive hget hb]
      exact enable_inv2 _ _ h
    · rw [toggle_eq_active hget hb]
      exact unregister_inv2 _ _ h

theorem runOp_inv2 (w : World) (op : Op) (h : Inv2 w)
    (hc : condNoDisabledUpdate w op = true) : Inv2 (runOp w op) := by
  cases op with
  | opRegister id acc a d => exact register_inv2 w id acc a d h
  | opUnregister id => exact unregister_inv2 w id h
  | opUpdate id newAcc =>
      refine update_inv2 w id newAcc h ?_
      simpa [condNoDisabledUpdate] using hc
  | opEnable id => exact enable_inv2 w id h
  | opDisable id => exact unregister_inv2 w id h
  | opToggle id => exact toggle_inv2 w id h
  | opUnregisterAll => exact unregisterAll_inv2 w
  | opImport cfg => exact importConfig_inv2 w cfg
  | opReset => exact resetToDefaults_inv2 w

theorem runOps_inv2 (ops : List Op) : ∀ w : World, Inv2 w →
    stepOKb condNoDisabledUpdate w ops = true → Inv2 (runOps w ops) := by
  induction ops with
  | nil => exact fun w h _ => h
  | cons op rest ih =>
    intro w h hok
    rw [stepOKb, Bool.and_eq_true] at hok
    exact ih _ (runOp_inv2 w op h hok.1) hok.2

theorem claimedImpliesEnabledB_of_inv2 {w : World} (h : Inv2 w) :
    claimedImpliesEnabledB (getAll w) = true := by
  unfold claimedImpliesEnabledB getAll
  rw [List.all_eq_true]
  intro p hp
  cases hr : p.2.registered
  · simp
  · simp [h p hp hr]

/-! ### Grammar lemmas (claim C7) -/

theorem isPrefixOf_mem {p : List Char} : ∀ {s : List Char},
    p.isPrefixOf s = true → ∀ {c : Char}, c ∈ p → c ∈ s := by
  induction p with
  | nil => intro s _ c hc; simp at hc
  | cons a as ih =>
    intro s h c hc
    cases s with
    | nil => simp [List.isPrefixOf] at h
    | cons b bs =>
      simp only [List.isPrefixOf, Bool.and_eq_true, beq_iff_eq] at h
      rcases List.mem_cons.mp hc with rfl | hc'
      · exact h.1 ▸ List.mem_cons_self _ _
      · exact List.mem_cons_of_mem _ (ih h.2 hc')

theorem strContains_mem {pat : List Char} : ∀ {s : List Char},
    strContains pat s = true → ∀ {c : Char}, c ∈ pat → c ∈ s := by
  intro s
  induction s with
  | nil =>
    intro h c hc
    cases pat with
    | nil => simp at hc
    | cons x xs => simp [strContains, List.isEmpty] at h
  | cons a rest ih =>
    intro h c hc
    rw [strContains, Bool.or_eq_true] at h
    rcases h with h | h
    · exact isPrefixOf_mem h hc
    · exact List.mem_cons_of_mem _ (ih h hc)

theorem upper_mem_of_hasModifier {s : List Char} (h : hasModifier s = true) :
    ∃ c ∈ s, isUpperAlnum c = true := by
  rw [hasModifier, List.any_eq_true] at h
  rcases h with ⟨w, hw, hws⟩
  have hall : ∀ w ∈ modifierWords, ∃ c ∈ w, isUpperAlnum c = true := by decide
  rcases hall w hw with ⟨c, hcw, hcu⟩
  exact ⟨c, strContains_mem hws hcw, hcu⟩

theorem hasKey_of_hasModifier {s : List Char} (h : hasModifier s = true) :
    hasKey s = true := by
  rcases upper_mem_of_hasModifier h with ⟨c, hcs, hcu⟩
  unfold hasKey
  rw [Bool.or_eq_true]
  exact Or.inl (List.any_eq_true.mpr ⟨c, hcs, hcu⟩)

/-! ### Emit lemma (claim C9) -/

theorem emitRun_take (L : List Bool) :
    emitRun L = L.take ((L.takeWhile (fun t => !t)).length + 1) := by
  induction L with
  | nil => rfl
  | cons t rest ih =>
    cases t
    · simp [emitRun, List.takeWhile_cons, ih]
    · simp [emitRun, List.takeWhile_cons]

/-! ### Round-trip helpers (claim C8) -/

/-- The binding produced for a configuration entry when every enabled entry
registers successfully: enabled entries come back `registered = true`,
disabled ones `registered = false`. -/
def importedBinding (c : Config) : Binding :=
  ⟨c.accelerator, c.action, c.description, c.enabled, c.enabled⟩

theorem bindingConfig_importedBinding (c : Config) :
    bindingConfig (importedBinding c) = c := by
  cases c
  rfl

theorem cfg_roundtrip (cfg : List (String × Config)) :
    (cfg.map (fun p => (p.1, importedBinding p.2))).map
        (fun p => (p.1, bindingConfig p.2)) = cfg := by
  induction cfg with
  | nil => rfl
  | cons hd tl ih => simp [ih, bindingConfig_importedBinding]

theorem exportConfig_keys (m : List (String × Binding)) :
    (m.map (fun p => (p.1, bindingConfig p.2))).map Prod.fst = m.map Prod.fst := by
  induction m with
  | nil => rfl
  | cons hd tl ih => simp [ih]

theorem bindingConfig_enabled (b : Binding) :
    (bindingConfig b).enabled = b.enabled := rfl

theorem bindingConfig_accelerator (b : Binding) :
    (bindingConfig b).accelerator = b.accelerator := rfl

theorem exportConfig_enabledAccs (m : List (String × Binding)) :
    ((m.map (fun p => (p.1, bindingConfig p.2))).filter
        (fun p => p.2.enabled)).map (fun p => p.2.accelerator)
      = (m.filter (fun p => p.2.enabled)).map (fun p => p.2.accelerator) := by
  induction m with
  | nil => rfl
  | cons hd tl ih =>
    by_cases he : hd.2.enabled = true <;>
      simp [List.filter_cons, bindingConfig_enabled, bindingConfig_accelerator, he, ih]

theorem mapGet_single_ne {id k : String} {v : Binding} (h : id ≠ k) :
    mapGet [(id, v)] k = none := by
  simp [mapGet, h]

theorem initLoop_append (cfg : List (String × Config)) : ∀ w : World,
    (∀ n, w.oracle n = true) →
    (cfg.map Prod.fst).Nodup →
    (∀ p ∈ cfg, mapGet w.shortcuts p.1 = none) →
    (∀ p ∈ cfg, p.2.enabled = true → isAcceleratorValidS p.2.accelerator = true) →
    (∀ p ∈ cfg, p.2.enabled = true → p.2.accelerator ∉ w.registeredAccelerators) →
    ((cfg.filter (fun p => p.2.enabled)).map (fun p => p.2.accelerator)).Nodup →
    (initLoop w cfg).shortcuts
      = w.shortcuts ++ cfg.map (fun p => (p.1, importedBinding p.2)) := by
  induction cfg with
  | nil => intro w _ _ _ _ _ _; simp [initLoop]
  | cons hd tl ih =>
    intro w horacle hkeys hfresh hvalid hset hdis
    obtain ⟨id, c⟩ := hd
    simp only [List.map_cons] at hkeys
    obtain ⟨hidnot, hkeys_tl⟩ := List.nodup_cons.mp hkeys
    have hfresh0 : mapGet w.shortcuts id = none :=
      hfresh (id, c) (List.mem_cons_self _ _)
    have hidne : ∀ p ∈ tl, id ≠ p.1 := by
      intro p hp heq
      apply hidnot
      rw [heq]
      exact List.mem_map.mpr ⟨p, hp, rfl⟩
    have hvalid' : ∀ p ∈ tl, p.2.enabled = true →
        isAcceleratorValidS p.2.accelerator = true :=
      fun p hp => hvalid p (List.mem_cons_of_mem _ hp)
    cases hc : c.enabled
    · rw [initLoop_cons_disabled hc]
      have hb : (⟨c.accelerator, c.action, c.description, c.enabled, false⟩ : Binding)
          = importedBinding c := by
        simp [importedBinding, hc]
      have hms : mapSet w.shortcuts id
            ⟨c.accelerator, c.action, c.description, c.enabled, false⟩
          = w.shortcuts ++ [(id, importedBinding c)] := by
        rw [mapSet_append_of_get_none hfresh0, hb]
      have hfresh'' : ∀ p ∈ tl, mapGet (mapSet w.shortcuts id
          ⟨c.accelerator, c.action, c.description, c.enabled, false⟩) p.1 = none := by
        intro p hp
        rw [hms, mapGet_append_of_none (hfresh p (List.mem_cons_of_mem _ hp)),
            mapGet_single_ne (hidne p hp)]
      have hset' : ∀ p ∈ tl, p.2.enabled = true →
          p.2.accelerator ∉ w.registeredAccelerators :=
        fun p hp => hset p (List.mem_cons_of_mem _ hp)
      have hdis_tl : ((tl.filter (fun p => p.2.enabled)).map
          (fun p => p.2.accelerator)).Nodup := by
        simpa [List.filter_cons, hc] using hdis
      have hIH := ih
        { w with
            shortcuts := mapSet w.shortcuts id
              ⟨c.accelerator, c.action, c.description, c.enabled, false⟩ }
        horacle hkeys_tl hfresh'' hvalid' hset' hdis_tl
      rw [hIH]
      simp [hms, List.append_assoc]
    · have hval0 : isAcceleratorValidS c.accelerator = true :=
        hvalid (id, c) (List.mem_cons_self _ _) hc
      have hset0 : c.accelerator ∉ w.registeredAccelerators :=
        hset (id, c) (List.mem_cons_self _ _) hc
      rw [initLoop_cons_enabled hc, register_eq_success hset0 hval0 (horacle w.calls)]
      have hb : (⟨c.accelerator, c.action, c.description, true, true⟩ : Binding)
          = importedBinding c := by
        simp [importedBinding, hc]
      have hms : mapSet w.shortcuts id
            ⟨c.accelerator, c.action, c.description, true, true⟩
          = w.shortcuts ++ [(id, importedBinding c)] := by
        rw [mapSet_append_of_get_none hfresh0, hb]
      obtain ⟨haccnot, hdis_tl⟩ := List.nodup_cons.mp
        (show (c.accelerator :: (tl.filter (fun p => p.2.enabled)).map
            (fun p => p.2.accelerator)).Nodup by
          simpa [List.filter_cons, hc] using hdis)
      have hfresh'' : ∀ p ∈ tl, mapGet (mapSet w.shortcuts id
          ⟨c.accelerator, c.action, c.description, true, true⟩) p.1 = none := by
        intro p hp
        rw [hms, mapGet_append_of_none (hfresh p (List.mem_cons_of_mem _ hp)),
            mapGet_single_ne (hidne p hp)]
      have hset'' : ∀ p ∈ tl, p.2.enabled = true →
          p.2.accelerator ∉ setAdd w.registeredAccelerators c.accelerator := by
        intro p hp hpe hmem
        rcases mem_setAdd_iff.mp hmem with hin | heq
        · exact hset p (List.mem_cons_of_mem _ hp) hpe hin
        · apply haccnot
          rw [← heq]
          exact List.mem_map.mpr ⟨p, List.mem_filter.mpr ⟨hp, hpe⟩, rfl⟩
      have hIH := ih
        { w with
            shortcuts := mapSet w.shortcuts id
              ⟨c.accelerator, c.action, c.description, true, true⟩,
            registeredAccelerators := setAdd w.registeredAccelerators c.accelerator,
            totalRegistered := w.totalRegistered + 1,
            calls := w.calls + 1,
            backendLog := w.backendLog ++ [BCall.tryClaim c.accelerator true] }
        horacle hkeys_tl hfresh'' hvalid' hset'' hdis_tl
      rw [hIH]
      simp [hms, List.append_assoc]

/-! ### Additional helpers for the claim theorems -/

theorem exportConfig_def (w : World) :
    exportConfig w = w.shortcuts.map (fun p => (p.1, bindingConfig p.2)) := rfl

theorem importConfig_eq (w : World) (cfg : List (String × Config)) :
    importConfig w cfg =
      ({ success := true },
       initShortcuts
         { w with
             backendLog := w.backendLog ++ [BCall.releaseAll],
             registeredAccelerators := [],
             shortcuts := [] } (some cfg)) := rfl

theorem markAllUnregistered_idem (m : List (String × Binding)) :
    ((m.map (fun p => (p.1, { p.2 with registered := false }))).map
        (fun p => (p.1, { p.2 with registered := false })))
      = m.map (fun p => (p.1, { p.2 with registered := false })) := by
  induction m with
  | nil => rfl
  | cons hd tl ih => simp [ih]

/-- Scenario for claim C4: register, disable, then update the disabled
binding with an all-accepting backend. -/
def opsC4 : List Op :=
  [.opRegister "a" "Ctrl+A" "act-a" "first binding",
   .opUnregister "a",
   .opUpdate "a" "Alt+B"]

/-- Scenario for claims C2 and C6: one successful registration. -/
def wReg : World :=
  (register (initialWorld oracleTrue) "a" "Ctrl+A" "act-a" "first binding").2

/-! ### The claims -/

/-- Claim C1, amended: for every backend behaviour and every sequence of
registry operations in which no Update on a claimed binding has its
new-accelerator claim rejected by the backend (the rollback path), at no
point do two bindings returned by `getAll()` share the same accelerator with
both `claimed = true`.  (The original claim, over all backend behaviours and
all sequences, is refuted by `C1_claimed_uniqueness_counterexample`.) -/
theorem C1_claimed_uniqueness (oracle : Nat → Bool) (ops : List Op) (n : Nat)
    (h : stepOKb condNoBrokenRollback (initialWorld oracle) ops = true) :
    claimedPairwiseB (getAll (runOps (initialWorld oracle) (ops.take n))) = true := by
  have hInv : Inv1 (initialWorld oracle) := by
    refine ⟨?_, ?_⟩ <;> simp [initialWorld, claimedAccs_nil]
  exact claimedPairwiseB_of_nodup
    (runOps_inv1 (ops.take n) _ hInv (stepOKb_take _ ops _ n h)).1

/-- Witness for C1: a concrete compliant run (all claims accepted). -/
theorem C1_claimed_uniqueness_witness :
    stepOKb condNoBrokenRollback (initialWorld oracleTrue) opsC1 = true ∧
    claimedPairwiseB (getAll (runOps (initialWorld oracleTrue) (opsC1.take 3))) = true :=
  ⟨by decide, C1_claimed_uniqueness oracleTrue opsC1 3 (by decide)⟩

/-- Counterexample to C1 as stated: register `"a"` on `Ctrl+A`, update it to
`Alt+B` with the backend rejecting the new claim (the binding keeps
`registered = true` while `Ctrl+A` leaves the index), then register `"b"` on
`Ctrl+A` — two bindings now hold `Ctrl+A` with `claimed = true`. -/
theorem C1_claimed_uniqueness_counterexample :
    claimedPairwiseB (getAll (runOps (initialWorld oracleRejectSecond) opsC1)) = false := by
  decide

/-- Claim C2, amended: a Register call whose accelerator is in the internal
claimed-accelerator index (`registeredAccelerators`) — rather than merely
held by some stored binding — fails with the duplicate error, conflict set,
and leaves the whole state (including the backend log: no `tryClaim`)
unchanged.  The original claim's trigger, "some existing binding already
holds that accelerator", is refuted by `C2_duplicate_rejection_counterexample`:
a disabled binding holds the accelerator but the call succeeds. -/
theorem C2_duplicate_rejection (w : World) (id acc action description : String)
    (h : acc ∈ w.registeredAccelerators) :
    (register w id acc action description).1 =
      { success := false, error := some "Shortcut already registered",
        conflict := some true } ∧
    getAll (register w id acc action description).2 = getAll w ∧
    (register w id acc action description).2.backendLog = w.backendLog := by
  rw [register_eq_dup h]
  exact ⟨rfl, rfl, rfl⟩

/-- Witness for C2: a concrete state whose index holds `Ctrl+A`. -/
theorem C2_duplicate_rejection_witness :
    ("Ctrl+A" ∈ wReg.registeredAccelerators) ∧
    ((register wReg "b" "Ctrl+A" "act-b" "second").1 =
      { success := false, error := some "Shortcut already registered",
        conflict := some true } ∧
     getAll (register wReg "b" "Ctrl+A" "act-b" "second").2 = getAll wReg ∧
     (register wReg "b" "Ctrl+A" "act-b" "second").2.backendLog = wReg.backendLog) :=
  ⟨by decide, C2_duplicate_rejection wReg "b" "Ctrl+A" "act-b" "second" (by decide)⟩

/-- Counterexample to C2 as stated: after register + unregister, binding
`"a"` still holds `Ctrl+A` in the map, yet registering `"b"` on `Ctrl+A`
succeeds and does invoke the backend (`tryClaim` is appended to the log). -/
theorem C2_duplicate_rejection_counterexample :
    mapGet wStale.shortcuts "a" =
      some ⟨"Ctrl+A", "act-a", "first binding", false, false⟩ ∧
    (register wStale "b" "Ctrl+A" "act-b" "second").1.success = true ∧
    (register wStale "b" "Ctrl+A" "act-b" "second").2.backendLog =
      wStale.backendLog ++ [BCall.tryClaim "Ctrl+A" true] := by
  refine ⟨by decide, by decide, by decide⟩

/-- Claim C3 (code bug): update `"showHide"` from its claimed accelerator to
one the backend rejects, with the rollback re-claim also rejected.  The log
shows the documented sequencing (release old, claim new, re-claim old) and
that the re-claim failed, yet the stored binding still reports
`enabled = true, claimed = true` with the old accelerator — the code ignores
the re-claim's result, so the binding never ends `Disabled` as the
specification requires. -/
theorem C3_rollback_failure_eval :
    (update wShowHide "showHide" "CommandOrControl+Alt+Q").1 =
      { success := false,
        error := some "Failed to register new shortcut (system conflict)",
        conflict := some true } ∧
    wRollback.backendLog =
      [BCall.tryClaim "CommandOrControl+Alt+E" true,
       BCall.release "CommandOrControl+Alt+E",
       BCall.tryClaim "CommandOrControl+Alt+Q" false,
       BCall.tryClaim "CommandOrControl+Alt+E" false] ∧
    mapGet wRollback.shortcuts "showHide" =
      some ⟨"CommandOrControl+Alt+E", "show-hide-window",
            "Show/Hide main window", true, true⟩ := by
  refine ⟨by decide, by decide, by decide⟩

/-- Claim C4, amended: under every backend behaviour and every operation
sequence in which no Update call succeeds on a disabled binding, every
binding with `claimed = true` also has `enabled = true` at every point.
(The original claim — including Update applied to a disabled binding — is
refuted by `C4_claimed_implies_enabled_counterexample`.) -/
theorem C4_claimed_implies_enabled (oracle : Nat → Bool) (ops : List Op) (n : Nat)
    (h : stepOKb condNoDisabledUpdate (initialWorld oracle) ops = true) :
    claimedImpliesEnabledB (getAll (runOps (initialWorld oracle) (ops.take n))) = true := by
  have hInv : Inv2 (initialWorld oracle) := by
    intro p hp
    simp [initialWorld] at hp
  exact claimedImpliesEnabledB_of_inv2
    (runOps_inv2 (ops.take n) _ hInv (stepOKb_take _ ops _ n h))

/-- Witness for C4: a concrete compliant run. -/
theorem C4_claimed_implies_enabled_witness :
    stepOKb condNoDisabledUpdate (initialWorld oracleTrue) opsC1 = true ∧
    claimedImpliesEnabledB (getAll (runOps (initialWorld oracleTrue) (opsC1.take 3))) = true :=
  ⟨by decide, C4_claimed_implies_enabled oracleTrue opsC1 3 (by decide)⟩

/-- Counterexample to C4 as stated: register `"a"`, unregister it (now
`enabled = false`), then update it with an accepting backend — the success
path copies `enabled = false` while setting `registered = true`, violating
I2. -/
theorem C4_claimed_implies_enabled_counterexample :
    claimedImpliesEnabledB (getAll (runOps (initialWorld oracleTrue) opsC4)) = false ∧
    mapGet (runOps (initialWorld oracleTrue) opsC4).shortcuts "a" =
      some ⟨"Alt+B", "act-a", "first binding", false, true⟩ := by
  refine ⟨by decide, by decide⟩

/-- Claim C5, amended: `unregister` fails (with "Shortcut not found") exactly
when the id is absent from the map; since a successful unregister keeps the
binding in the map as `Disabled`, a second unregister of the same id
succeeds again rather than failing with NotFound.  (The original claim's
"second call fails with NotFound" is refuted by
`C5_unregister_idempotent_counterexample`.) -/
theorem C5_unregister_idempotent (w : World) (id : String) :
    (unregister w id).1.success = (mapGet w.shortcuts id).isSome ∧
    (unregister w id).1.error =
      (if (mapGet w.shortcuts id).isSome then none else some "Shortcut not found") ∧
    (unregister (unregister w id).2 id).1.success = (mapGet w.shortcuts id).isSome := by
  cases hget : mapGet w.shortcuts id with
  | none =>
    simp [unregister_eq_notFound hget]
  | some sc =>
    cases hreg : sc.registered
    · rw [unregister_eq_found_unregistered hget hreg]
      refine ⟨rfl, rfl, ?_⟩
      rw [unregister_eq_found_unregistered
        (mapGet_mapSet_self
          (m := w.shortcuts) (k := id)
          (v := { sc with enabled := false, registered := false })) rfl]
      rfl
    · rw [unregister_eq_found_registered hget hreg]
      refine ⟨rfl, rfl, ?_⟩
      rw [unregister_eq_found_unregistered
        (mapGet_mapSet_self
          (m := w.shortcuts) (k := id)
          (v := { sc with enabled := false, registered := false })) rfl]
      rfl

/-- Counterexample to C5 as stated: `wStale` is the state after a successful
register + unregister of `"a"`; a second unregister succeeds (no NotFound). -/
theorem C5_unregister_idempotent_counterexample :
    (unregister wStale "a").1.success = true ∧
    (unregister wStale "a").1.error = none := by
  refine ⟨by decide, by decide⟩

/-- Claim C6, amended: `unregisterAll` calls the backend's `releaseAll`,
clears the accelerator index, marks every stored binding `claimed = false`
without removing any binding from the map, always succeeds, and is
idempotent — but it leaves each binding's `enabled` flag unchanged, so
bindings do not end in the specification's `Disabled` state
(`enabled = false`); see `C6_unregisterAll_counterexample`. -/
theorem C6_unregisterAll (w : World) :
    (unregisterAll w).1 = { success := true } ∧
    (unregisterAll w).2.shortcuts
      = w.shortcuts.map (fun p => (p.1, { p.2 with registered := false })) ∧
    (unregisterAll w).2.backendLog = w.backendLog ++ [BCall.releaseAll] ∧
    (unregisterAll w).2.registeredAccelerators = [] ∧
    (unregisterAll (unregisterAll w).2).1 = { success := true } ∧
    (unregisterAll (unregisterAll w).2).2.shortcuts = (unregisterAll w).2.shortcuts := by
  refine ⟨rfl, rfl, rfl, rfl, rfl, ?_⟩
  rw [unregisterAll_eq, unregisterAll_eq]
  exact markAllUnregistered_idem w.shortcuts

/-- Counterexample to C6 as stated: after registering `"a"` (so
`enabled = true`), `unregisterAll` leaves `enabled = true` — the binding is
not in the `Disabled` state the claim requires. -/
theorem C6_unregisterAll_counterexample :
    mapGet (unregisterAll wReg).2.shortcuts "a" =
      some ⟨"Ctrl+A", "act-a", "first binding", true, false⟩ := by
  decide

/-- Claim C7, amended: the source validator accepts a string iff the
case-sensitive substring test for the modifier words
(Command/Ctrl/Control/Alt/Option/Shift/Super/Meta) succeeds — the separate
key test is subsumed because every modifier word contains an uppercase
letter, which the key regex's `[A-Z0-9]` class accepts.  Consequently
matching is neither token-based nor case-insensitive: `"ctrl+a"` is
rejected and the modifier-only string `"Shift"` is accepted, both against
the original claim (see `C7_validator_counterexample`). -/
theorem C7_validator_eq_modifier_test (s : List Char) :
    isAcceleratorValid s = hasModifier s := by
  cases s with
  | nil => decide
  | cons c rest =>
    unfold isAcceleratorValid
    rw [if_neg (by simp)]
    cases hm : hasModifier (c :: rest)
    · simp
    · simp [hasKey_of_hasModifier hm]

/-- Counterexample to C7 as stated: the specification's grammar
(`specGrammarValid`, built from the claim's words) and the source's
validator disagree at `"ctrl+a"` (lowercase modifier plus alphanumeric key:
spec-valid, source-invalid) and at `"Shift"` (modifier tokens only, no key
token: spec-invalid, source-valid). -/
theorem C7_validator_counterexample :
    specGrammarValid "ctrl+a".data = true ∧
    isAcceleratorValid "ctrl+a".data = false ∧
    specGrammarValid "Shift".data = false ∧
    isAcceleratorValid "Shift".data = true := by
  refine ⟨by decide, by decide, by decide, by decide⟩

/-- Claim C8, amended: for a registry state with at least one stored binding,
unique ids, and grammar-valid, pairwise-distinct accelerators across its
enabled bindings, with a backend accepting every claim, `import(export())`
rebuilds exactly the projected binding set — same ids, accelerators,
actions, descriptions and enabled flags, in the same order — and fully
replaces the previous state (the result is determined by the exported
configuration alone).  Unique ids hold in every reachable state, but each
remaining restriction is forced by a failure of the original claim at a
state reachable through the public API (see
`C8_roundtrip_counterexample`): the empty registry re-imports as the five
built-in defaults; two enabled bindings sharing one accelerator (reachable
via Update's rollback, cf. C1) lose one of the two on re-import; an enabled
binding carrying a grammar-invalid accelerator (reachable because Update
never validates the new accelerator) is dropped on re-import. -/
theorem C8_roundtrip (w : World)
    (hne : w.shortcuts ≠ [])
    (hkeys : (w.shortcuts.map Prod.fst).Nodup)
    (hvalid : ∀ p ∈ w.shortcuts, p.2.enabled = true →
      isAcceleratorValidS p.2.accelerator = true)
    (hdisa : ((w.shortcuts.filter (fun p => p.2.enabled)).map
      (fun p => p.2.accelerator)).Nodup)
    (horacle : ∀ n, w.oracle n = true) :
    (importConfig w (exportConfig w)).1 = { success := true } ∧
    (importConfig w (exportConfig w)).2.shortcuts
      = (exportConfig w).map (fun p => (p.1, importedBinding p.2)) ∧
    exportConfig (importConfig w (exportConfig w)).2 = exportConfig w := by
  have hcfg_ne : exportConfig w ≠ [] := by
    rw [exportConfig_def]
    cases hws : w.shortcuts
    · exact absurd hws hne
    · simp
  have hIE : (exportConfig w).isEmpty = false := by
    cases hcf : exportConfig w
    · exact absurd hcf hcfg_ne
    · rfl
  have happ := initLoop_append (exportConfig w)
    { w with
        backendLog := w.backendLog ++ [BCall.releaseAll],
        registeredAccelerators := [],
        shortcuts := [] }
    horacle
    (by
      rw [exportConfig_def, exportConfig_keys w.shortcuts]
      exact hkeys)
    (fun p _ => rfl)
    (by
      intro p hp hpe
      rw [exportConfig_def] at hp
      rcases List.mem_map.mp hp with ⟨q, hq, rfl⟩
      exact hvalid q hq hpe)
    (by
      intro p _ _ hmem
      simp at hmem)
    (by
      rw [exportConfig_def, exportConfig_enabledAccs w.shortcuts]
      exact hdisa)
  have hIS : initShortcuts
      { w with
          backendLog := w.backendLog ++ [BCall.releaseAll],
          registeredAccelerators := [],
          shortcuts := [] } (some (exportConfig w))
      = initLoop
        { w with
            backendLog := w.backendLog ++ [BCall.releaseAll],
            registeredAccelerators := [],
            shortcuts := [] } (exportConfig w) := by
    unfold initShortcuts
    simp [hIE]
  have h2 : (importConfig w (exportConfig w)).2.shortcuts
      = (exportConfig w).map (fun p => (p.1, importedBinding p.2)) := by
    rw [importConfig_eq, hIS]
    rw [show ((({ success := true } : Result),
        initLoop
          { w with
              backendLog := w.backendLog ++ [BCall.releaseAll],
              registeredAccelerators := [],
              shortcuts := [] } (exportConfig w)).2).shortcuts
      = (initLoop
          { w with
              backendLog := w.backendLog ++ [BCall.releaseAll],
              registeredAccelerators := [],
              shortcuts := [] } (exportConfig w)).shortcuts from rfl]
    rw [happ]
    simp
  refine ⟨rfl, h2, ?_⟩
  rw [exportConfig_def ((importConfig w (exportConfig w)).2), h2, cfg_roundtrip]

/-- Witness for C8: a one-binding state with an accepting backend. -/
theorem C8_roundtrip_witness :
    (wReg.shortcuts ≠ [] ∧ (wReg.shortcuts.map Prod.fst).Nodup ∧
     ((wReg.shortcuts.filter (fun p => p.2.enabled)).map
       (fun p => p.2.accelerator)).Nodup) ∧
    exportConfig (importConfig wReg (exportConfig wReg)).2 = exportConfig wReg :=
  ⟨⟨by decide, by decide, by decide⟩,
   (C8_roundtrip wReg (by decide) (by decide) (by decide) (by decide)
     (fun _ => rfl)).2.2⟩

/-- A state reachable through the public API (the C1 rollback scenario) in
which two enabled bindings share the accelerator `Ctrl+A`. -/
def wDup : World := runOps (initialWorld oracleRejectSecond) opsC1

/-- A state reachable through the public API in which an enabled binding
carries the grammar-invalid accelerator `"x"`: `update` checks the index but
never the grammar.  (The backend accepts every claim asked from here on.) -/
def wInvAcc : World := (update wReg "a" "x").2

/-- Counterexample to C8 as stated, at three concrete registry states, each
reachable through the public API.  (1) The empty registry: its export is the
empty configuration, and importing it loads the five built-in defaults
instead of the empty binding set.  (2) `wDup`, where two enabled bindings
share `Ctrl+A`: re-import drops binding `"b"` (the log shows the backend
accepted the only claim it was asked, so the loss is the registry's own
duplicate check).  (3) `wInvAcc`, whose enabled binding holds the invalid
accelerator `"x"`: re-import drops it without even consulting the backend
(the log gains only the `releaseAll`). -/
theorem C8_roundtrip_counterexample :
    (getAll (initialWorld oracleTrue) = [] ∧
     (getAll (importConfig (initialWorld oracleTrue)
       (exportConfig (initialWorld oracleTrue))).2).length = 5) ∧
    ((getAll wDup).length = 2 ∧
     mapGet wDup.shortcuts "b" =
       some ⟨"Ctrl+A", "act-b", "second binding", true, true⟩ ∧
     (getAll (importConfig wDup (exportConfig wDup)).2).length = 1 ∧
     mapGet (importConfig wDup (exportConfig wDup)).2.shortcuts "b" = none ∧
     (importConfig wDup (exportConfig wDup)).2.backendLog
       = wDup.backendLog ++ [BCall.releaseAll, BCall.tryClaim "Ctrl+A" true]) ∧
    (mapGet wInvAcc.shortcuts "a" =
       some ⟨"x", "act-a", "first binding", true, true⟩ ∧
     isAcceleratorValidS "x" = false ∧
     getAll (importConfig wInvAcc (exportConfig wInvAcc)).2 = [] ∧
     (importConfig wInvAcc (exportConfig wInvAcc)).2.backendLog
       = wInvAcc.backendLog ++ [BCall.releaseAll]) := by
  refine ⟨⟨rfl, by decide⟩,
          ⟨by decide, by decide, by decide, by decide, by decide⟩,
          ⟨by decide, by decide, by decide, by decide⟩⟩

/-- Claim C9, amended: every trigger delivery increments `totalTriggered` by
exactly one and sets `lastTriggered` to that event's record, whatever the
listeners do (the stats are written before emission); but emission follows
Node `EventEmitter` semantics — the listeners actually run are exactly the
prefix up to and including the first throwing listener, so a throwing
listener does prevent later-registered listeners from receiving the event
(see `C9_trigger_counterexample`). -/
theorem C9_trigger_stats (w : World) (listeners : List Bool)
    (id action accelerator timestamp : String) :
    (handleShortcutTriggered w listeners id action accelerator timestamp).1.totalTriggered
      = w.totalTriggered + 1 ∧
    (handleShortcutTriggered w listeners id action accelerator timestamp).1.lastTriggered
      = some ⟨id, action, accelerator, timestamp⟩ ∧
    (handleShortcutTriggered w listeners id action accelerator timestamp).2
      = listeners.take ((listeners.takeWhile (fun t => !t)).length + 1) := by
  exact ⟨rfl, rfl, emitRun_take listeners⟩

/-- Counterexample to C9 as stated: with two listeners of which the first
throws, only the first listener runs (the second never receives the event),
although the stats were still updated correctly. -/
theorem C9_trigger_counterexample :
    (handleShortcutTriggered (initialWorld oracleTrue) [true, false]
      "showHide" "show-hide-window" "CommandOrControl+Alt+E" "t0").2 = [true] ∧
    (handleShortcutTriggered (initialWorld oracleTrue) [true, false]
      "showHide" "show-hide-window" "CommandOrControl+Alt+E" "t0").1.totalTriggered = 1 := by
  refine ⟨by decide, by decide⟩

/-- Claim C10 (code bug): after Update's rollback path on a claimed binding,
the binding still reports `claimed = true` for its old accelerator while
`registeredAccelerators` — the index the constructor documents as tracking
"which shortcuts are currently registered" and which duplicate detection
reads — no longer contains it: the correspondence the claim asserts is
broken by this path. -/
theorem C10_index_desync_eval :
    claimedAccs wRollback.shortcuts = ["CommandOrControl+Alt+E"] ∧
    wRollback.registeredAccelerators = [] := by
  refine ⟨by decide, by decide⟩
